import Mathlib

/-!
Verification of the SpeakSharp backend scoring pipeline.

This file gives a shallow embedding, over `ℚ`, `ℕ` and `List Char`, of the
scoring functions of the SpeakSharp backend:

* `backend/analyzers/proficiency_calculator.py` (`ProficiencyCalculator`)
* `backend/analyzers/filler_word_analyzer.py` (`FillerWordAnalyzer`)
* `backend/app/models/proficiency_evaluation.py`
* `backend/analyzers/voice_modulation_analyzer.py` (`VoiceModulationAnalyzer`)
* `backend/analyzers/transcription_analyzer.py` / `grammar_analyzer.py`
  (pause-marker insertion and stripping)
* `backend/app/ml_engine/speech_evaluation_engine.py` (`_extract_scores`)

Python machine floats are modelled by exact rationals; Python `round`
(banker's rounding) is modelled by `pythonRound`.  Python exceptions that a
function can raise and does not catch are modelled with `Except`.
-/

theorem rat_floor_eq_intFloor (q : ℚ) : q.floor = ⌊q⌋ :=
  (Rat.floor_def' q).trans Rat.floor_def.symm

/-- Python's built-in `round` to zero decimal places: round half to even
(banker's rounding), on exact rationals. -/
def pythonRound (q : ℚ) : ℤ :=
  let f := q.floor
  let r := q - (f : ℚ)
  if r < 1/2 then f
  else if 1/2 < r then f + 1
  else if f % 2 = 0 then f else f + 1

/-- Python's `round(x, 1)`: round to one decimal place, half to even. -/
def pythonRound1 (q : ℚ) : ℚ := (pythonRound (q * 10) : ℚ) / 10

theorem pythonRound_intCast (n : ℤ) : pythonRound (n : ℚ) = n := by
  unfold pythonRound
  rw [rat_floor_eq_intFloor]
  simp

theorem pythonRound1_int_div_ten (n : ℤ) : pythonRound1 ((n : ℚ) / 10) = (n : ℚ) / 10 := by
  unfold pythonRound1
  have h : ((n : ℚ) / 10) * 10 = (n : ℚ) := by ring
  rw [h, pythonRound_intCast]

theorem pythonRound_zero : pythonRound 0 = 0 := by
  have := pythonRound_intCast 0
  simpa using this

/-- Mid-sentence pause buckets, as produced by
`FillerWordAnalyzer._analyze_mid_sentence_pauses`
(`'Pauses under 1.5 seconds'`, `'Pauses between 1.5-3 seconds'`,
`'Pauses exceeding 3 seconds'`, `'Pauses exceeding 5 seconds'`). -/
structure PauseAnalysis where
  under_1_5 : ℕ
  between_1_5_3 : ℕ
  exceeding_3 : ℕ
  exceeding_5 : ℕ
deriving DecidableEq, Repr

/-- The filler-analysis dictionary consumed by `ProficiencyCalculator`
(`'Total Filler Words'`, `'Filler Words Per Minute'`, `'Filler Density'`,
optional `'mid_sentence_pauses'`).  The per-minute dictionary is modelled by
its list of per-minute counts (the scoring loop only iterates over the
counts). -/
structure FillerAnalysis where
  total_filler_words : ℕ
  filler_words_per_minute : List ℕ
  filler_density : ℚ
  mid_sentence_pauses : Option PauseAnalysis
deriving DecidableEq, Repr

namespace ProficiencyCalculator

/-- `ProficiencyCalculator._evaluate_filler_words`
(`backend/analyzers/proficiency_calculator.py`, lines 76-103).
`expected_duration` is accepted and ignored exactly as in the source. -/
def evaluate_filler_words (filler_analysis : FillerAnalysis)
    (expected_duration : String) : ℚ :=
  let max_score : ℚ := 10
  let filler_density := filler_analysis.filler_density
  if filler_density > 0.15 then 0
  else
    let score : ℚ :=
      if filler_density > 0.10 then 2
      else if filler_density > 0.05 then 4
      else
        filler_analysis.filler_words_per_minute.foldl
          (fun score count =>
            if count > 8 then score - 3
            else if count > 5 then score - 2
            else if count > 2 then score - 1
            else score) max_score
  max 0 (min score max_score)

/-- `ProficiencyCalculator._evaluate_pauses`
(`backend/analyzers/proficiency_calculator.py`, lines 105-128). -/
def evaluate_pauses (pause_analysis : PauseAnalysis)
    (expected_duration : String) : ℚ :=
  let max_score : ℚ := 10
  let score := max_score
  let score := if pause_analysis.under_1_5 > 3 then score - 2 else score
  let score := if pause_analysis.between_1_5_3 > 2 then score - 3 else score
  let score := if pause_analysis.exceeding_3 > 1 then score - 4 else score
  let score := if pause_analysis.exceeding_5 > 0 then 0 else score
  let total_pauses := pause_analysis.under_1_5 + pause_analysis.between_1_5_3 +
    pause_analysis.exceeding_3 + pause_analysis.exceeding_5
  let score := if total_pauses > 8 then max 0 (score - 5) else score
  max 0 score

/-- The `details` sub-dictionary of `ProficiencyCalculator.calculate`. -/
structure ProfDetails where
  filler_penalty : ℚ
  pause_penalty : ℚ
  filler_density : ℚ
  total_fillers : ℕ
deriving DecidableEq, Repr

/-- The dictionary returned by `ProficiencyCalculator.calculate`. -/
structure ProfResult where
  final_score : ℚ
  filler_score : ℚ
  pause_score : ℚ
  details : ProfDetails
deriving DecidableEq, Repr

/-- `ProficiencyCalculator.calculate`
(`backend/analyzers/proficiency_calculator.py`, lines 7-44).
The `transcription_result` argument is accepted and never read, as in the
source; it is modelled with `Unit`. -/
def calculate (transcription_result : Unit) (filler_analysis : FillerAnalysis)
    (expected_duration : String) : ProfResult :=
  let pause_analysis := filler_analysis.mid_sentence_pauses.getD ⟨0, 0, 0, 0⟩
  let filler_score := evaluate_filler_words filler_analysis expected_duration
  let pause_score := evaluate_pauses pause_analysis expected_duration
  let final_score := ((filler_score * 0.6) + (pause_score * 0.4)) * 2
  { final_score := pythonRound1 final_score
    filler_score := pythonRound1 filler_score
    pause_score := pythonRound1 pause_score
    details :=
      { filler_penalty := pythonRound1 (10 - filler_score)
        pause_penalty := pythonRound1 (10 - pause_score)
        filler_density := filler_analysis.filler_density
        total_fillers := filler_analysis.total_filler_words } }

end ProficiencyCalculator

namespace FillerWordAnalyzer

/-- The scoring section of `FillerWordAnalyzer._analyze_filler_words`
(`backend/analyzers/filler_word_analyzer.py`, lines 74-100), as a function of
the filler density and the per-minute filler counts computed earlier in the
same method (`filler_density = total_filler_words / total_words`,
`filler_words_per_minute.values()`).  Returns the dictionary's `'Score'`
entry, `round(score, 1)`. -/
def analyze_filler_words_score (filler_density : ℚ)
    (per_minute_counts : List ℕ) : ℚ :=
  let score : ℚ :=
    if filler_density ≥ 0.15 then 0
    else if filler_density ≥ 0.10 then 2
    else if filler_density ≥ 0.05 then 4
    else max 0 (10 - filler_density * 100)
  let score := per_minute_counts.foldl
    (fun score count =>
      if count > 6 then max 0 (score - 4)
      else if count > 4 then max 0 (score - 3)
      else if count > 2 then max 0 (score - 2)
      else score) score
  pythonRound1 score

end FillerWordAnalyzer

namespace proficiency_evaluation

/-- `evaluate_pauses` in `backend/app/models/proficiency_evaluation.py`,
lines 91-124; same arithmetic as
`ProficiencyCalculator._evaluate_pauses` (the source uses mandatory key
lookups instead of `.get` defaults, which on a complete dictionary agree). -/
def evaluate_pauses (pause_analysis : PauseAnalysis)
    (expected_duration : String) : ℚ :=
  let max_score : ℚ := 10
  let score := max_score
  let score := if pause_analysis.under_1_5 > 3 then score - 2 else score
  let score := if pause_analysis.between_1_5_3 > 2 then score - 3 else score
  let score := if pause_analysis.exceeding_3 > 1 then score - 4 else score
  let score := if pause_analysis.exceeding_5 > 0 then 0 else score
  let total_pauses := pause_analysis.under_1_5 + pause_analysis.between_1_5_3 +
    pause_analysis.exceeding_3 + pause_analysis.exceeding_5
  let score := if total_pauses > 8 then max 0 (score - 5) else score
  max 0 score

end proficiency_evaluation

section FillerLemmas

/-- The per-minute fold of `ProficiencyCalculator._evaluate_filler_words`
keeps a zero score at zero is false in general (it subtracts), but the fold
of `FillerWordAnalyzer._analyze_filler_words` clamps at 0 at every step and
therefore maps 0 to 0. -/
theorem filler_fold_zero (pm : List ℕ) :
    pm.foldl (fun score count =>
      if count > 6 then max 0 (score - 4)
      else if count > 4 then max 0 (score - 3)
      else if count > 2 then max 0 (score - 2)
      else score) (0 : ℚ) = 0 := by
  induction pm with
  | nil => rfl
  | cons c cs ih =>
    simp only [List.foldl_cons]
    have h : (if c > 6 then max 0 ((0 : ℚ) - 4)
      else if c > 4 then max 0 ((0 : ℚ) - 3)
      else if c > 2 then max 0 ((0 : ℚ) - 2)
      else 0) = 0 := by
      split_ifs <;> norm_num
    rw [h, ih]

end FillerLemmas

/-- C1: the claim as stated is false: in
`ProficiencyCalculator._evaluate_filler_words` the density test is the
strict `filler_density > 0.15`, so at density exactly `0.15` the score is
`2`, not `0`. -/
theorem C1_counterexample :
    ProficiencyCalculator.evaluate_filler_words
      ⟨3, [], 0.15, none⟩ "5-7 minutes" = 2 ∧
    ((0.15 : ℚ) ≥ 0.15) ∧
    ProficiencyCalculator.evaluate_filler_words
      ⟨3, [], 0.15, none⟩ "5-7 minutes" ≠ 0 := by
  refine ⟨?_, le_refl _, ?_⟩ <;> norm_num [ProficiencyCalculator.evaluate_filler_words]

/-- C1 (amended): a filler density `≥ 0.15` forces a filler score of `0` in
`FillerWordAnalyzer._analyze_filler_words`, whatever the per-minute counts
(the clamped per-minute penalties never change a zero); in
`ProficiencyCalculator._evaluate_filler_words` the zero is forced exactly by
the strict inequality `density > 0.15`, while density exactly `0.15` yields
score `2`. -/
theorem C1_density_zero :
    (∀ (d : ℚ) (pm : List ℕ), d ≥ 0.15 →
      FillerWordAnalyzer.analyze_filler_words_score d pm = 0) ∧
    (∀ (fa : FillerAnalysis) (ed : String), fa.filler_density > 0.15 →
      ProficiencyCalculator.evaluate_filler_words fa ed = 0) ∧
    (∀ (fa : FillerAnalysis) (ed : String), fa.filler_density = 0.15 →
      ProficiencyCalculator.evaluate_filler_words fa ed = 2) := by
  refine ⟨?_, ?_, ?_⟩
  · intro d pm hd
    unfold FillerWordAnalyzer.analyze_filler_words_score
    simp only [if_pos hd, filler_fold_zero]
    simp [pythonRound1, pythonRound_zero]
  · intro fa ed hd
    unfold ProficiencyCalculator.evaluate_filler_words
    simp [if_pos hd]
  · intro fa ed hd
    unfold ProficiencyCalculator.evaluate_filler_words
    rw [hd]
    norm_num

/-- Witness for `C1_density_zero` at concrete inputs. -/
theorem C1_density_zero_witness :
    FillerWordAnalyzer.analyze_filler_words_score 0.2 [9, 9] = 0 ∧
    ProficiencyCalculator.evaluate_filler_words ⟨0, [], 0.2, none⟩ "x" = 0 ∧
    ProficiencyCalculator.evaluate_filler_words ⟨0, [], 0.15, none⟩ "x" = 2 :=
  ⟨C1_density_zero.1 0.2 [9, 9] (by norm_num),
   C1_density_zero.2.1 ⟨0, [], 0.2, none⟩ "x" (by norm_num),
   C1_density_zero.2.2 ⟨0, [], 0.15, none⟩ "x" rfl⟩

/-- C2: whenever the count of mid-sentence pauses exceeding 5 seconds is
positive, both pause evaluators return exactly 0: the hard zero is applied
after the bucket penalties, and the subsequent total-pause penalty
`max(0, score - 5)` cannot change a zero. -/
theorem C2_pause_hard_fail (pa : PauseAnalysis) (ed : String)
    (h : pa.exceeding_5 > 0) :
    ProficiencyCalculator.evaluate_pauses pa ed = 0 ∧
    proficiency_evaluation.evaluate_pauses pa ed = 0 := by
  constructor <;>
  · simp only [ProficiencyCalculator.evaluate_pauses,
      proficiency_evaluation.evaluate_pauses, if_pos h]
    split_ifs <;> norm_num

/-- Witness for `C2_pause_hard_fail`. -/
theorem C2_pause_hard_fail_witness :
    ProficiencyCalculator.evaluate_pauses ⟨0, 0, 0, 1⟩ "5-7 minutes" = 0 ∧
    proficiency_evaluation.evaluate_pauses ⟨0, 0, 0, 1⟩ "5-7 minutes" = 0 :=
  C2_pause_hard_fail ⟨0, 0, 0, 1⟩ "5-7 minutes" (by decide)

section FillerCharacterization

/-- The total per-minute penalty subtracted by the loop of
`ProficiencyCalculator._evaluate_filler_words` (3 per minute with more than
8 fillers, 2 for more than 5, 1 for more than 2). -/
def perMinutePenalty (pm : List ℕ) : ℕ :=
  (pm.map (fun c => if c > 8 then 3 else if c > 5 then 2 else if c > 2 then 1 else 0)).sum

theorem filler_fold_sub (pm : List ℕ) (s : ℚ) :
    pm.foldl (fun score count =>
      if count > 8 then score - 3
      else if count > 5 then score - 2
      else if count > 2 then score - 1
      else score) s = s - (perMinutePenalty pm : ℚ) := by
  induction pm generalizing s with
  | nil => simp [perMinutePenalty]
  | cons c cs ih =>
    simp only [List.foldl_cons, perMinutePenalty, List.map_cons, List.sum_cons] at *
    rw [ih]
    split_ifs <;> push_cast <;> ring

theorem evaluate_filler_words_eq (fa : FillerAnalysis) (ed : String) :
    ProficiencyCalculator.evaluate_filler_words fa ed =
      if fa.filler_density > 0.15 then 0
      else if fa.filler_density > 0.10 then 2
      else if fa.filler_density > 0.05 then 4
      else max 0 (min (10 - (perMinutePenalty fa.filler_words_per_minute : ℚ)) 10) := by
  simp only [ProficiencyCalculator.evaluate_filler_words]
  by_cases h1 : fa.filler_density > 0.15
  · rw [if_pos h1, if_pos h1]
  · rw [if_neg h1, if_neg h1]
    by_cases h2 : fa.filler_density > 0.10
    · rw [if_pos h2, if_pos h2]
      norm_num
    · rw [if_neg h2, if_neg h2]
      by_cases h3 : fa.filler_density > 0.05
      · rw [if_pos h3, if_pos h3]
        norm_num
      · rw [if_neg h3, if_neg h3, filler_fold_sub]

/-- A rational that is (the cast of) an integer. -/
def IsInt (q : ℚ) : Prop := ∃ n : ℤ, q = (n : ℚ)

theorem isInt_max {a b : ℚ} (ha : IsInt a) (hb : IsInt b) : IsInt (max a b) := by
  obtain ⟨m, rfl⟩ := ha
  obtain ⟨n, rfl⟩ := hb
  exact ⟨max m n, by push_cast ; rfl⟩

theorem isInt_min {a b : ℚ} (ha : IsInt a) (hb : IsInt b) : IsInt (min a b) := by
  obtain ⟨m, rfl⟩ := ha
  obtain ⟨n, rfl⟩ := hb
  exact ⟨min m n, by push_cast ; rfl⟩

theorem isInt_sub {a b : ℚ} (ha : IsInt a) (hb : IsInt b) : IsInt (a - b) := by
  obtain ⟨m, rfl⟩ := ha
  obtain ⟨n, rfl⟩ := hb
  exact ⟨m - n, by push_cast ; rfl⟩

theorem isInt_natCast (n : ℕ) : IsInt (n : ℚ) := ⟨n, by push_cast ; rfl⟩

theorem isInt_zero : IsInt (0 : ℚ) := ⟨0, by norm_num⟩

theorem isInt_two : IsInt (2 : ℚ) := ⟨2, by norm_num⟩

theorem isInt_three : IsInt (3 : ℚ) := ⟨3, by norm_num⟩

theorem isInt_four : IsInt (4 : ℚ) := ⟨4, by norm_num⟩

theorem isInt_five : IsInt (5 : ℚ) := ⟨5, by norm_num⟩

theorem isInt_ten : IsInt (10 : ℚ) := ⟨10, by norm_num⟩

theorem exists_int_evaluate_pauses (pa : PauseAnalysis) (ed : String) :
    IsInt (ProficiencyCalculator.evaluate_pauses pa ed) := by
  simp only [ProficiencyCalculator.evaluate_pauses]
  split_ifs <;>
    repeat'
      first
        | apply isInt_max
        | apply isInt_sub
        | exact isInt_zero
        | exact isInt_two
        | exact isInt_three
        | exact isInt_four
        | exact isInt_five
        | exact isInt_ten

theorem exists_int_evaluate_filler (fa : FillerAnalysis) (ed : String) :
    IsInt (ProficiencyCalculator.evaluate_filler_words fa ed) := by
  rw [evaluate_filler_words_eq]
  split_ifs
  · exact isInt_zero
  · exact isInt_two
  · exact isInt_four
  · exact isInt_max isInt_zero
      (isInt_min (isInt_sub isInt_ten (isInt_natCast _)) isInt_ten)

theorem pythonRound1_weighted (f p : ℚ) (hf : IsInt f) (hp : IsInt p) :
    pythonRound1 ((f * 0.6 + p * 0.4) * 2) = (f * 0.6 + p * 0.4) * 2 := by
  obtain ⟨m, rfl⟩ := hf
  obtain ⟨n, rfl⟩ := hp
  have h : ((m : ℚ) * 0.6 + (n : ℚ) * 0.4) * 2 = ((12 * m + 8 * n : ℤ) : ℚ) / 10 := by
    push_cast
    ring
  rw [h, pythonRound1_int_div_ten]

theorem calculate_final_score (tr : Unit) (fa : FillerAnalysis) (ed : String) :
    (ProficiencyCalculator.calculate tr fa ed).final_score =
      pythonRound1 ((ProficiencyCalculator.evaluate_filler_words fa ed * 0.6 +
        ProficiencyCalculator.evaluate_pauses
          (fa.mid_sentence_pauses.getD ⟨0, 0, 0, 0⟩) ed * 0.4) * 2) := rfl

end FillerCharacterization

/-- C3: the claim as stated is false: with equal pause data (all buckets 0),
the input with filler density 1/25 and per-minute counts [9,9,9] scores
(10-9)=1 on fillers and final 9.2, while the input with the strictly higher
density 3/50 scores a flat 4 on fillers and final 12.8, which is strictly
higher. -/
theorem C3_counterexample :
    (1/25 : ℚ) < 3/50 ∧
    (ProficiencyCalculator.calculate () ⟨27, [9, 9, 9], 1/25, some ⟨0, 0, 0, 0⟩⟩
        "5-7 minutes").final_score <
      (ProficiencyCalculator.calculate () ⟨3, [9, 9, 9], 3/50, some ⟨0, 0, 0, 0⟩⟩
        "5-7 minutes").final_score := by
  constructor
  · norm_num
  · rw [calculate_final_score, calculate_final_score]
    have hf1 : ProficiencyCalculator.evaluate_filler_words
        ⟨27, [9, 9, 9], 1/25, some ⟨0, 0, 0, 0⟩⟩ "5-7 minutes" = 1 := by
      rw [evaluate_filler_words_eq]
      norm_num [perMinutePenalty]
    have hf2 : ProficiencyCalculator.evaluate_filler_words
        ⟨3, [9, 9, 9], 3/50, some ⟨0, 0, 0, 0⟩⟩ "5-7 minutes" = 4 := by
      rw [evaluate_filler_words_eq]
      norm_num
    have hp : ProficiencyCalculator.evaluate_pauses ⟨0, 0, 0, 0⟩ "5-7 minutes" = 10 := by
      simp only [ProficiencyCalculator.evaluate_pauses]
      norm_num
    simp only [Option.getD_some]
    rw [hf1, hf2, hp]
    have e1 : ((1 : ℚ) * 0.6 + 10 * 0.4) * 2 = ((92 : ℤ) : ℚ) / 10 := by norm_num
    have e2 : ((4 : ℚ) * 0.6 + 10 * 0.4) * 2 = ((128 : ℤ) : ℚ) / 10 := by norm_num
    rw [e1, e2, pythonRound1_int_div_ten, pythonRound1_int_div_ten]
    norm_num

/-- C3 (amended): holding the pause data and the per-minute filler counts
fixed, and provided the total per-minute penalty is at most 6 (so that the
low-density branch score `10 - penalty` stays at or above the next
breakpoint 4), the final proficiency score of
`ProficiencyCalculator.calculate` is monotonically non-increasing in the
filler density. -/
theorem C3_monotone (fa₁ fa₂ : FillerAnalysis) (ed : String)
    (hpause : fa₁.mid_sentence_pauses = fa₂.mid_sentence_pauses)
    (hpm : fa₁.filler_words_per_minute = fa₂.filler_words_per_minute)
    (hpen : perMinutePenalty fa₁.filler_words_per_minute ≤ 6)
    (hd : fa₁.filler_density ≤ fa₂.filler_density) :
    (ProficiencyCalculator.calculate () fa₂ ed).final_score ≤
      (ProficiencyCalculator.calculate () fa₁ ed).final_score := by
  have hpen' : (perMinutePenalty fa₁.filler_words_per_minute : ℚ) ≤ 6 := by
    exact_mod_cast hpen
  have hlow : (4 : ℚ) ≤
      max 0 (min (10 - (perMinutePenalty fa₁.filler_words_per_minute : ℚ)) 10) := by
    have h1 : (4 : ℚ) ≤ min (10 - (perMinutePenalty fa₁.filler_words_per_minute : ℚ)) 10 :=
      le_min (by linarith) (by norm_num)
    exact le_trans h1 (le_max_right _ _)
  have hfmono : ProficiencyCalculator.evaluate_filler_words fa₂ ed ≤
      ProficiencyCalculator.evaluate_filler_words fa₁ ed := by
    rw [evaluate_filler_words_eq, evaluate_filler_words_eq, ← hpm]
    split_ifs <;> first | rfl | exact le_max_left 0 _ | linarith [hlow]
  rw [calculate_final_score, calculate_final_score,
      pythonRound1_weighted _ _ (exists_int_evaluate_filler fa₂ ed) (exists_int_evaluate_pauses _ _),
      pythonRound1_weighted _ _ (exists_int_evaluate_filler fa₁ ed) (exists_int_evaluate_pauses _ _),
      ← hpause]
  linarith

/-- Witness for `C3_monotone` at concrete inputs. -/
theorem C3_monotone_witness :
    (ProficiencyCalculator.calculate () ⟨4, [3], 3/50, some ⟨1, 0, 0, 0⟩⟩ "5-7 minutes").final_score ≤
      (ProficiencyCalculator.calculate () ⟨2, [3], 1/25, some ⟨1, 0, 0, 0⟩⟩ "5-7 minutes").final_score :=
  C3_monotone ⟨2, [3], 1/25, some ⟨1, 0, 0, 0⟩⟩ ⟨4, [3], 3/50, some ⟨1, 0, 0, 0⟩⟩
    "5-7 minutes" rfl rfl (by decide) (by norm_num)

section DurationThresholds

/-- Python exceptions relevant to `_get_duration_adjusted_thresholds`:
the `except (ValueError, AttributeError)` clause catches the first two;
`IndexError` is not caught and propagates. -/
inductive PyErr where
  | valueError
  | attributeError
  | indexError
deriving DecidableEq, Repr

deriving instance DecidableEq for Except

/-- The threshold dictionary returned by
`_get_duration_adjusted_thresholds` (filler `minimal/low/moderate`, pause
`short/medium/long/very_long`). -/
structure Thresholds where
  minimal : ℤ
  low : ℤ
  moderate : ℤ
  short : ℤ
  medium : ℤ
  long : ℤ
  very_long : ℤ
deriving DecidableEq, Repr

/-- The 7-minute default thresholds returned by the `except` branch. -/
def defaultThresholds : Thresholds := ⟨2, 5, 8, 5, 3, 2, 0⟩

/-- The `return` dictionary of the `try` branch: scale each base threshold
by `scaling_factor = min(max_minutes / 7.0, 1.0)` and `round` it. -/
def thresholdsFor (max_minutes : ℚ) : Thresholds :=
  let scaling_factor := min (max_minutes / 7) 1
  ⟨pythonRound (2 * scaling_factor), pythonRound (5 * scaling_factor),
   pythonRound (8 * scaling_factor), pythonRound (5 * scaling_factor),
   pythonRound (3 * scaling_factor), pythonRound (2 * scaling_factor), 0⟩

/-- Python `str.split(sep)` for a one-character separator: keeps empty
parts. -/
def splitOnChar (sep : Char) : List Char → List (List Char)
  | [] => [[]]
  | c :: cs =>
    match splitOnChar sep cs with
    | [] => [[]]
    | h :: t => if c = sep then [] :: h :: t else (c :: h) :: t

/-- Split on a character predicate, keeping empty parts. -/
def splitWhenChar (p : Char → Bool) : List Char → List (List Char)
  | [] => [[]]
  | c :: cs =>
    match splitWhenChar p cs with
    | [] => [[]]
    | h :: t => if p c then [] :: h :: t else (c :: h) :: t

/-- Python's `\s` whitespace on ASCII. -/
def isPySpace (c : Char) : Bool :=
  c = ' ' || c = '\t' || c = '\n' || c = '\r' || c = '\x0b' || c = '\x0c'

/-- Python `str.split()` with no argument: split on whitespace runs and
drop empty parts. -/
def pySplitWS (l : List Char) : List (List Char) :=
  (splitWhenChar isPySpace l).filter (fun w => !w.isEmpty)

/-- Decimal digit run to a natural number. -/
def digitsToNat (l : List Char) : ℕ :=
  l.foldl (fun a c => a * 10 + (c.toNat - 48)) 0

/-- The shape of a Python `float()` literal: optional sign, digits with at
most one dot and at least one digit (`"7"`, `"2.5"`, `"1."`, `".5"`).
Returns `(negative, integer part, fractional part, fractional length)`, or
`none` when `float()` would raise `ValueError`.  (Exponents, `inf`/`nan`
and underscores never occur in duration strings and are treated as
malformed.) -/
def pyFloatParts (l : List Char) : Option (Bool × ℕ × ℕ × ℕ) :=
  let signed : Bool × List Char :=
    match l with
    | '-' :: r => (true, r)
    | '+' :: r => (false, r)
    | r => (false, r)
  match splitOnChar '.' signed.2 with
  | [a] =>
    if a ≠ [] ∧ a.all Char.isDigit then some (signed.1, digitsToNat a, 0, 0) else none
  | [a, b] =>
    if (a ++ b) ≠ [] ∧ (a ++ b).all Char.isDigit then
      some (signed.1, digitsToNat a, digitsToNat b, b.length)
    else none
  | _ => none

/-- Python `float()` on a token, as an exact rational. -/
def pyFloat (l : List Char) : Option ℚ :=
  (pyFloatParts l).map fun p =>
    (if p.1 then -1 else 1) * ((p.2.1 : ℚ) + (p.2.2.1 : ℚ) / 10 ^ p.2.2.2)

/-- The token-extraction stage of `_get_duration_adjusted_thresholds`:
`expected_duration.lower().replace(dash, '-')`, then
`split('-')[1].split()[0]` when a dash is present, else `split()[0]`.
A missing second list element raises `IndexError`. -/
def durationToken (dash : Char) (s : String) : Except PyErr (List Char) :=
  let cs := (s.data.map Char.toLower).map (fun c => if c = dash then '-' else c)
  if cs.contains '-' then
    match (splitOnChar '-' cs).get? 1 with
    | none => .error .indexError
    | some part =>
      match (pySplitWS part).head? with
      | none => .error .indexError
      | some tok => .ok tok
  else
    match (pySplitWS cs).head? with
    | none => .error .indexError
    | some tok => .ok tok

/-- The `try` body of `_get_duration_adjusted_thresholds`: `None` raises
`AttributeError` at `.lower()`, a malformed numeric token raises
`ValueError` at `float()`. -/
def durationParse (dash : Char) (ed : Option String) : Except PyErr ℚ :=
  match ed with
  | none => .error .attributeError
  | some s =>
    match durationToken dash s with
    | .error e => .error e
    | .ok tok =>
      match pyFloat tok with
      | none => .error .valueError
      | some m => .ok m

/-- `_get_duration_adjusted_thresholds`: the `except (ValueError,
AttributeError)` clause returns the 7-minute defaults; `IndexError`
propagates. -/
def durationThresholdsWith (dash : Char) (ed : Option String) :
    Except PyErr Thresholds :=
  match durationParse dash ed with
  | .ok m => .ok (thresholdsFor m)
  | .error .valueError => .ok defaultThresholds
  | .error .attributeError => .ok defaultThresholds
  | .error .indexError => .error .indexError

end DurationThresholds

/-- `ProficiencyCalculator._get_duration_adjusted_thresholds`
(`backend/analyzers/proficiency_calculator.py`, lines 46-74); its
`.replace` normalizes the em dash. -/
def ProficiencyCalculator.get_duration_adjusted_thresholds
    (expected_duration : Option String) : Except PyErr Thresholds :=
  durationThresholdsWith '—' expected_duration

/-- `get_duration_adjusted_thresholds` in
`backend/app/models/proficiency_evaluation.py`, lines 3-45; identical
except that its `.replace` normalizes the en dash. -/
def proficiency_evaluation.get_duration_adjusted_thresholds
    (expected_duration : Option String) : Except PyErr Thresholds :=
  durationThresholdsWith '–' expected_duration

theorem pythonRound_eq_of_intCast {q : ℚ} {n : ℤ} (h : q = (n : ℚ)) :
    pythonRound q = n := h ▸ pythonRound_intCast n

/-- C4: the claim as stated is false on its fallback clause: the malformed
duration string `"5-"` does not fall back to the defaults; the code raises
an uncaught `IndexError` (`split('-')[1]` is the empty string, so
`.split()[0]` indexes an empty list). -/
theorem C4_counterexample :
    ProficiencyCalculator.get_duration_adjusted_thresholds (some "5-") =
      .error .indexError ∧
    proficiency_evaluation.get_duration_adjusted_thresholds (some "5-") =
      .error .indexError ∧
    .error .indexError ≠ (.ok defaultThresholds : Except PyErr Thresholds) := by
  refine ⟨?_, ?_, by simp⟩
  · have h : durationToken '—' "5-" = .error .indexError := by decide
    simp [ProficiencyCalculator.get_duration_adjusted_thresholds,
      durationThresholdsWith, durationParse, h]
  · have h : durationToken '–' "5-" = .error .indexError := by decide
    simp [proficiency_evaluation.get_duration_adjusted_thresholds,
      durationThresholdsWith, durationParse, h]

/-- C4 (amended): the scaling computation is as claimed — `"7-7 minutes"`
gives scaling factor 1 and the base thresholds, `"1-2 minutes"` gives
scaling factor 2/7 with each threshold scaled and rounded, every threshold
is `round(base * min(max_minutes/7, 1))`, any maximum of 7 minutes or more
clamps to the defaults, and a missing duration (`None`) or a duration whose
minute token fails `float()` parsing falls back to the 7-minute defaults.
(A string with no token after the dash, such as `"5-"`, instead raises an
uncaught `IndexError`; see the counterexample.) -/
theorem C4_duration_thresholds :
    ProficiencyCalculator.get_duration_adjusted_thresholds (some "7-7 minutes") =
      .ok ⟨2, 5, 8, 5, 3, 2, 0⟩ ∧
    ProficiencyCalculator.get_duration_adjusted_thresholds (some "1-2 minutes") =
      .ok ⟨1, 1, 2, 1, 1, 1, 0⟩ ∧
    proficiency_evaluation.get_duration_adjusted_thresholds (some "1-2 minutes") =
      .ok ⟨1, 1, 2, 1, 1, 1, 0⟩ ∧
    (∀ m : ℚ, thresholdsFor m =
      ⟨pythonRound (2 * min (m / 7) 1), pythonRound (5 * min (m / 7) 1),
       pythonRound (8 * min (m / 7) 1), pythonRound (5 * min (m / 7) 1),
       pythonRound (3 * min (m / 7) 1), pythonRound (2 * min (m / 7) 1), 0⟩) ∧
    (∀ m : ℚ, 7 ≤ m → thresholdsFor m = defaultThresholds) ∧
    ProficiencyCalculator.get_duration_adjusted_thresholds none =
      .ok defaultThresholds ∧
    ProficiencyCalculator.get_duration_adjusted_thresholds (some "abc") =
      .ok defaultThresholds := by
  have hclamp : ∀ m : ℚ, 7 ≤ m → thresholdsFor m = defaultThresholds := by
    intro m hm
    have hmin : min (m / 7) 1 = 1 :=
      min_eq_right ((one_le_div (by norm_num : (0:ℚ) < 7)).mpr hm)
    have h2 : pythonRound ((2 : ℚ)) = 2 := pythonRound_eq_of_intCast (by norm_num)
    have h5 : pythonRound ((5 : ℚ)) = 5 := pythonRound_eq_of_intCast (by norm_num)
    have h8 : pythonRound ((8 : ℚ)) = 8 := pythonRound_eq_of_intCast (by norm_num)
    have h3 : pythonRound ((3 : ℚ)) = 3 := pythonRound_eq_of_intCast (by norm_num)
    simp only [thresholdsFor, hmin, mul_one, h2, h5, h8, h3, defaultThresholds]
  have hfor2 : thresholdsFor 2 = ⟨1, 1, 2, 1, 1, 1, 0⟩ := by
    have hmin2 : min ((2 : ℚ) / 7) 1 = 2 / 7 := min_eq_left (by norm_num)
    have q1 : pythonRound ((2 : ℚ) * (2 / 7)) = 1 := by
      rw [show ((2 : ℚ) * (2 / 7)) = 4 / 7 by norm_num]
      simp only [pythonRound, rat_floor_eq_intFloor]
      norm_num
    have q2 : pythonRound ((5 : ℚ) * (2 / 7)) = 1 := by
      rw [show ((5 : ℚ) * (2 / 7)) = 10 / 7 by norm_num]
      simp only [pythonRound, rat_floor_eq_intFloor]
      norm_num
    have q3 : pythonRound ((8 : ℚ) * (2 / 7)) = 2 := by
      rw [show ((8 : ℚ) * (2 / 7)) = 16 / 7 by norm_num]
      simp only [pythonRound, rat_floor_eq_intFloor]
      norm_num
    have q4 : pythonRound ((3 : ℚ) * (2 / 7)) = 1 := by
      rw [show ((3 : ℚ) * (2 / 7)) = 6 / 7 by norm_num]
      simp only [pythonRound, rat_floor_eq_intFloor]
      norm_num
    simp only [thresholdsFor, hmin2, q1, q2, q3, q4]
  have hfl7 : pyFloat ['7'] = some 7 := by
    have hp : pyFloatParts ['7'] = some (false, 7, 0, 0) := by decide
    simp [pyFloat, hp]
  have hfl2 : pyFloat ['2'] = some 2 := by
    have hp : pyFloatParts ['2'] = some (false, 2, 0, 0) := by decide
    simp [pyFloat, hp]
  have htok77 : durationToken '—' "7-7 minutes" = .ok ['7'] := by decide
  have htok12 : durationToken '—' "1-2 minutes" = .ok ['2'] := by decide
  have htok12' : durationToken '–' "1-2 minutes" = .ok ['2'] := by decide
  have htokabc : durationToken '—' "abc" = .ok ['a', 'b', 'c'] := by decide
  have hflabc : pyFloat ['a', 'b', 'c'] = none := by decide
  refine ⟨?_, ?_, ?_, fun m => rfl, hclamp, ?_, ?_⟩
  · have h7 : thresholdsFor 7 = defaultThresholds := hclamp 7 (le_refl 7)
    simp [ProficiencyCalculator.get_duration_adjusted_thresholds,
      durationThresholdsWith, durationParse, htok77, hfl7, h7, defaultThresholds]
  · simp [ProficiencyCalculator.get_duration_adjusted_thresholds,
      durationThresholdsWith, durationParse, htok12, hfl2, hfor2]
  · simp [proficiency_evaluation.get_duration_adjusted_thresholds,
      durationThresholdsWith, durationParse, htok12', hfl2, hfor2]
  · simp [ProficiencyCalculator.get_duration_adjusted_thresholds,
      durationThresholdsWith, durationParse]
  · simp [ProficiencyCalculator.get_duration_adjusted_thresholds,
      durationThresholdsWith, durationParse, htokabc, hflabc]

/-- Witness for `C4_duration_thresholds` at a concrete input. -/
theorem C4_duration_thresholds_witness :
    thresholdsFor 9 = defaultThresholds :=
  C4_duration_thresholds.2.2.2.2.1 9 (by norm_num)

namespace VoiceModulationAnalyzer

/-- `VoiceModulationAnalyzer._calculate_quality_compensation`
(`backend/analyzers/voice_modulation_analyzer.py`, lines 214-222). -/
def calculate_quality_compensation (quality_factor : ℚ) : ℚ :=
  if quality_factor < 0.5 then 2
  else if quality_factor < 0.7 then 1.5
  else if quality_factor < 0.9 then 1
  else 0

/-- `VoiceModulationAnalyzer._adjust_score_for_quality` (lines 224-226). -/
def adjust_score_for_quality (score compensation : ℚ) : ℚ :=
  min 10 (score + compensation)

/-- `VoiceModulationAnalyzer._calculate_pitch_score` (lines 111-130);
`mean_pitch` is accepted and never read, as in the source. -/
def calculate_pitch_score (mean_pitch std_pitch pitch_range : ℚ) : ℚ :=
  let score : ℚ := 10.0
  let score :=
    if std_pitch < 8 then score - 5
    else if std_pitch < 15 then score - 3
    else if std_pitch > 60 then score - 4
    else score
  let score :=
    if pitch_range < 40 then score - 3
    else if pitch_range > 250 then score - 2
    else score
  let score :=
    if 15 ≤ std_pitch ∧ std_pitch ≤ 50 ∧ 50 ≤ pitch_range ∧ pitch_range ≤ 200
    then score + 1 else score
  max 5 (min 10 score)

/-- `VoiceModulationAnalyzer._calculate_volume_score` (lines 132-147), as a
function of the two statistics `np.std(intensity_values)` and
`np.max(...) - np.min(...)` it computes from `intensity_values` (the
standard deviation involves a square root and is treated as an input). -/
def calculate_volume_score (intensity_std intensity_range : ℚ) : ℚ :=
  let score : ℚ := 10.0
  let score := if intensity_std > 20 then score - 2 else score
  let score := if intensity_range > 50 then score - 2 else score
  let score := if 10 ≤ intensity_std ∧ intensity_std ≤ 18 then score + 1 else score
  max 5 (min 10 score)

/-- `VoiceModulationAnalyzer._calculate_emphasis_distribution`
(lines 181-196).  `segment_duration = duration / segments` is computed by
the source and never used; the bucket of a point is
`int((point / len(emphasis_points)) * segments)`, clamped to the last
bucket. -/
def calculate_emphasis_distribution (emphasis_points : List ℕ)
    (duration : ℚ) : List ℕ :=
  if emphasis_points.isEmpty then []
  else
    emphasis_points.foldl
      (fun (dist : List ℕ) (point : ℕ) =>
        let seg := Int.toNat ⌊((point : ℚ) / (emphasis_points.length : ℚ)) * 4⌋
        let seg := if seg ≥ 4 then 3 else seg
        dist.set seg (dist.getD seg 0 + 1))
      (List.replicate 4 0)

/-- `VoiceModulationAnalyzer._calculate_emphasis_score` (lines 149-179);
`pitch_values` is accepted and never read, as in the source. -/
def calculate_emphasis_score (emphasis_points : List ℕ) (duration : ℚ)
    (pitch_values intensity_values : List ℚ) : ℚ :=
  let score : ℚ := 10.0
  let ideal_emphasis_count := duration / 4
  let actual_count : ℚ := (emphasis_points.length : ℚ)
  let emphRate := actual_count / ideal_emphasis_count
  let score :=
    if emphRate < 0.4 then score - 3
    else if emphRate > 2.5 then score - 2
    else score
  let distribution := calculate_emphasis_distribution emphasis_points duration
  let score :=
    if distribution ≠ [] ∧ ((distribution.foldl max 0 : ℕ) : ℚ) > actual_count * 0.6
    then score - 2 else score
  let emphasis_intensities :=
    (emphasis_points.filter (fun p => p < intensity_values.length)).map
      (fun p => intensity_values.getD p 0)
  let score :=
    if emphasis_intensities ≠ [] then
      let avg_emphasis_intensity :=
        emphasis_intensities.sum / (emphasis_intensities.length : ℚ)
      let base_intensity := intensity_values.sum / (intensity_values.length : ℚ)
      if avg_emphasis_intensity < base_intensity * 1.05 then score - 1
      else if avg_emphasis_intensity > base_intensity * 1.6 then score - 1
      else score
    else score
  let score := if 0.4 ≤ emphRate ∧ emphRate ≤ 2.5 then score + 1 else score
  max 5 (min 10 score)

end VoiceModulationAnalyzer

/-- C5: the quality compensation is the documented step function, hence
monotonically non-increasing in the quality factor, with
compensation(0.3) ≥ compensation(0.6) ≥ compensation(0.8) ≥
compensation(0.95) = 0, and the quality adjustment caps the compensated
score at 10. -/
theorem C5_quality_compensation :
    (∀ q : ℚ, VoiceModulationAnalyzer.calculate_quality_compensation q =
      if q < 0.5 then 2 else if q < 0.7 then 1.5 else if q < 0.9 then 1 else 0) ∧
    (∀ q₁ q₂ : ℚ, q₁ ≤ q₂ →
      VoiceModulationAnalyzer.calculate_quality_compensation q₂ ≤
        VoiceModulationAnalyzer.calculate_quality_compensation q₁) ∧
    VoiceModulationAnalyzer.calculate_quality_compensation 0.6 ≤
      VoiceModulationAnalyzer.calculate_quality_compensation 0.3 ∧
    VoiceModulationAnalyzer.calculate_quality_compensation 0.8 ≤
      VoiceModulationAnalyzer.calculate_quality_compensation 0.6 ∧
    VoiceModulationAnalyzer.calculate_quality_compensation 0.95 ≤
      VoiceModulationAnalyzer.calculate_quality_compensation 0.8 ∧
    VoiceModulationAnalyzer.calculate_quality_compensation 0.95 = 0 ∧
    (∀ s c : ℚ, VoiceModulationAnalyzer.adjust_score_for_quality s c ≤ 10) := by
  have hmono : ∀ q₁ q₂ : ℚ, q₁ ≤ q₂ →
      VoiceModulationAnalyzer.calculate_quality_compensation q₂ ≤
        VoiceModulationAnalyzer.calculate_quality_compensation q₁ := by
    intro q₁ q₂ h
    simp only [VoiceModulationAnalyzer.calculate_quality_compensation]
    split_ifs <;> linarith
  refine ⟨fun q => rfl, hmono, hmono _ _ (by norm_num), hmono _ _ (by norm_num),
    hmono _ _ (by norm_num), ?_, fun s c => min_le_left _ _⟩
  simp only [VoiceModulationAnalyzer.calculate_quality_compensation]
  norm_num

/-- Witness for `C5_quality_compensation` at concrete inputs. -/
theorem C5_quality_compensation_witness :
    VoiceModulationAnalyzer.calculate_quality_compensation 0.75 ≤
      VoiceModulationAnalyzer.calculate_quality_compensation 0.2 :=
  C5_quality_compensation.2.1 0.2 0.75 (by norm_num)

/-- C6: pitch, volume and emphasis scores are always clamped into [5, 10]
(for the emphasis scorer provided the recording duration is positive — at
duration 0 the source raises `ZeroDivisionError`), and perfectly flat pitch
(std = 0, range = 0) is clamped up from its raw score to the floor 5. -/
theorem C6_score_bounds :
    (∀ m s r : ℚ, 5 ≤ VoiceModulationAnalyzer.calculate_pitch_score m s r ∧
      VoiceModulationAnalyzer.calculate_pitch_score m s r ≤ 10) ∧
    (∀ s r : ℚ, 5 ≤ VoiceModulationAnalyzer.calculate_volume_score s r ∧
      VoiceModulationAnalyzer.calculate_volume_score s r ≤ 10) ∧
    (∀ (pts : List ℕ) (dur : ℚ) (pv iv : List ℚ), 0 < dur →
      5 ≤ VoiceModulationAnalyzer.calculate_emphasis_score pts dur pv iv ∧
      VoiceModulationAnalyzer.calculate_emphasis_score pts dur pv iv ≤ 10) ∧
    (∀ m : ℚ, VoiceModulationAnalyzer.calculate_pitch_score m 0 0 = 5) := by
  refine ⟨fun m s r => ⟨le_max_left _ _, max_le (by norm_num) (min_le_left _ _)⟩,
    fun s r => ⟨le_max_left _ _, max_le (by norm_num) (min_le_left _ _)⟩,
    fun pts dur pv iv _ => ⟨le_max_left _ _, max_le (by norm_num) (min_le_left _ _)⟩,
    fun m => ?_⟩
  simp only [VoiceModulationAnalyzer.calculate_pitch_score]
  norm_num

/-- Witness for `C6_score_bounds` at concrete inputs, including the
synthetic extremes std = 0 and std = 10000. -/
theorem C6_score_bounds_witness :
    (5 ≤ VoiceModulationAnalyzer.calculate_pitch_score 220 0 0 ∧
      VoiceModulationAnalyzer.calculate_pitch_score 220 0 0 ≤ 10) ∧
    (5 ≤ VoiceModulationAnalyzer.calculate_pitch_score 220 10000 0 ∧
      VoiceModulationAnalyzer.calculate_pitch_score 220 10000 0 ≤ 10) ∧
    (5 ≤ VoiceModulationAnalyzer.calculate_emphasis_score [] 10 [] [] ∧
      VoiceModulationAnalyzer.calculate_emphasis_score [] 10 [] [] ≤ 10) :=
  ⟨C6_score_bounds.1 220 0 0, C6_score_bounds.1 220 10000 0,
    C6_score_bounds.2.2.1 [] 10 [] [] (by norm_num)⟩

/-- The bucketing that `_calculate_emphasis_distribution` actually
performs: bucket `min 3 (4 * point / count)` (natural division), where
`count` is the number of emphasis points; the recording duration plays no
role. -/
def index_share_distribution (pts : List ℕ) : List ℕ :=
  if pts.isEmpty then []
  else
    pts.foldl
      (fun dist point =>
        let seg := min 3 ((point * 4) / pts.length)
        dist.set seg (dist.getD seg 0 + 1))
      (List.replicate 4 0)

/-- Modelled from the spec: "the 4-bucket distribution assigns each
emphasis point to the quarter of the recording's duration in which it
occurs" — bucket `int(t / duration * 4)` clamped to the last bucket, with a
point's coordinate taken as its position in the recording. -/
def emphasis_distribution_spec (emphasis_points : List ℕ) (duration : ℚ) :
    List ℕ :=
  if emphasis_points.isEmpty then []
  else
    emphasis_points.foldl
      (fun (dist : List ℕ) (point : ℕ) =>
        let seg := Int.toNat ⌊((point : ℚ) / duration) * 4⌋
        let seg := if seg ≥ 4 then 3 else seg
        dist.set seg (dist.getD seg 0 + 1))
      (List.replicate 4 0)

theorem emphasis_distribution_eq_index_share (pts : List ℕ) (dur : ℚ) :
    VoiceModulationAnalyzer.calculate_emphasis_distribution pts dur =
      index_share_distribution pts := by
  simp only [VoiceModulationAnalyzer.calculate_emphasis_distribution,
    index_share_distribution]
  by_cases he : pts.isEmpty
  · simp [he]
  · simp only [he, Bool.false_eq_true, if_false]
    apply List.foldl_ext
    intro dist point hmem
    have hcast : ((point : ℚ) / (pts.length : ℚ)) * 4 =
        (((point * 4 : ℕ) : ℚ) / ((pts.length : ℕ) : ℚ)) := by
      push_cast
      ring
    have hfloor : Int.toNat ⌊((point : ℚ) / (pts.length : ℚ)) * 4⌋ =
        (point * 4) / pts.length := by
      rw [hcast, Int.floor_toNat, Nat.floor_div_nat, Nat.floor_natCast]
    have hclamp : (if (point * 4) / pts.length ≥ 4 then 3
        else (point * 4) / pts.length) = min 3 ((point * 4) / pts.length) := by
      rcases le_or_lt 4 ((point * 4) / pts.length) with h | h
      · rw [if_pos h, min_eq_left (by omega)]
      · rw [if_neg (by omega), min_eq_right (by omega)]
    simp only [hfloor, hclamp]

/-- C7: the claim as stated is false: the bucketing does not depend on the
quarter of the recording in which a point occurs.  For points [0, 9] in a
100-second recording both points lie in the first quarter (the spec-modelled
distribution is [2,0,0,0], firing the >60% penalty), but the code buckets
point 9 as `int(9/2 * 4) = 18`, clamped to bucket 3, giving [1,0,0,1] and no
penalty. -/
theorem C7_counterexample :
    VoiceModulationAnalyzer.calculate_emphasis_distribution [0, 9] 100 =
      [1, 0, 0, 1] ∧
    emphasis_distribution_spec [0, 9] 100 = [2, 0, 0, 0] ∧
    VoiceModulationAnalyzer.calculate_emphasis_distribution [0, 9] 100 ≠
      emphasis_distribution_spec [0, 9] 100 ∧
    ¬ ((1 : ℚ) > 2 * 0.6) ∧ ((2 : ℚ) > 2 * 0.6) := by
  have h1 : VoiceModulationAnalyzer.calculate_emphasis_distribution [0, 9] 100 =
      [1, 0, 0, 1] := by
    rw [emphasis_distribution_eq_index_share]
    decide
  have hseg0 : Int.toNat ⌊(((0 : ℕ) : ℚ) / 100) * 4⌋ = 0 := by norm_num
  have hseg9 : Int.toNat ⌊(((9 : ℕ) : ℚ) / 100) * 4⌋ = 0 := by
    have h : ⌊(((9 : ℕ) : ℚ) / 100) * 4⌋ = 0 := by
      rw [show (((9 : ℕ) : ℚ) / 100) * 4 = 9 / 25 by push_cast ; ring]
      norm_num
    rw [h]
    rfl
  have h2 : emphasis_distribution_spec [0, 9] 100 = [2, 0, 0, 0] := by
    simp only [emphasis_distribution_spec, List.isEmpty, List.foldl_cons,
      List.foldl_nil, hseg0, hseg9]
    decide
  exact ⟨h1, h2, by rw [h1, h2] ; decide, by norm_num, by norm_num⟩

/-- C7 (amended): the distribution buckets each emphasis point by
`min 3 (4 * pointIndex / pointCount)` — the share of the point's index
relative to the number of emphasis points — independently of the recording
duration; the 2-point penalty in the emphasis scorer then fires when one
bucket holds more than 60% of all emphasis points. -/
theorem C7_index_bucketing :
    ∀ (pts : List ℕ) (dur : ℚ),
      VoiceModulationAnalyzer.calculate_emphasis_distribution pts dur =
        index_share_distribution pts :=
  fun pts dur => emphasis_distribution_eq_index_share pts dur

namespace SpeechEvaluationEngine

/-- The score lookups of `SpeechEvaluationEngine._extract_scores`
(`backend/app/ml_engine/speech_evaluation_engine.py`, lines 98-144): each
component is fetched with a `.get` chain over up to two keys; a `none`
models a key that is missing from the analyzer results. -/
structure EngineInputs where
  vm_total : Option ℚ
  vm_score : Option ℚ
  gv_overall : Option ℚ
  gv_score : Option ℚ
  prof_overall : Option ℚ
  prof_score : Option ℚ
  filler_score : Option ℚ
  st_overall : Option ℚ
  st_score : Option ℚ
  eff_overall : Option ℚ
  eff_score : Option ℚ
deriving DecidableEq, Repr

/-- The `scores` dictionary produced by `_extract_scores`. -/
structure ExtractedScores where
  voice_modulation : ℚ
  grammar_vocabulary : ℚ
  proficiency : ℚ
  filler_words : ℚ
  structure_score : ℚ
  effectiveness : ℚ
deriving DecidableEq, Repr

/-- The validation loop at the end of `_extract_scores`: negative (or
non-numeric — all modelled values here are numbers) scores become 50 and
scores above 100 are capped at 100. -/
def validate (v : ℚ) : ℚ :=
  if v < 0 then 50 else if v > 100 then 100 else v

/-- `SpeechEvaluationEngine._extract_scores`: fallback chains with neutral
defaults (50 everywhere, 70 for filler words), followed by the validation
pass. -/
def extract_scores (inp : EngineInputs) : ExtractedScores :=
  { voice_modulation := validate (inp.vm_total.getD (inp.vm_score.getD 50))
    grammar_vocabulary := validate (inp.gv_overall.getD (inp.gv_score.getD 50))
    proficiency := validate (inp.prof_overall.getD (inp.prof_score.getD 50))
    filler_words := validate (inp.filler_score.getD 70)
    structure_score := validate (inp.st_overall.getD (inp.st_score.getD 50))
    effectiveness := validate (inp.eff_overall.getD (inp.eff_score.getD 50)) }

end SpeechEvaluationEngine

/-- C9: in `SpeechEvaluationEngine._extract_scores`, every component whose
score keys are missing is substituted with its neutral default before the
weighted sum — 50 for every component except filler words, which defaults
to 70 — and any present score above 100 is capped at 100 rather than
failing. -/
theorem C9_missing_score_defaults :
    (∀ inp : SpeechEvaluationEngine.EngineInputs,
      inp.vm_total = none → inp.vm_score = none →
        (SpeechEvaluationEngine.extract_scores inp).voice_modulation = 50) ∧
    (∀ inp : SpeechEvaluationEngine.EngineInputs,
      inp.gv_overall = none → inp.gv_score = none →
        (SpeechEvaluationEngine.extract_scores inp).grammar_vocabulary = 50) ∧
    (∀ inp : SpeechEvaluationEngine.EngineInputs,
      inp.prof_overall = none → inp.prof_score = none →
        (SpeechEvaluationEngine.extract_scores inp).proficiency = 50) ∧
    (∀ inp : SpeechEvaluationEngine.EngineInputs,
      inp.filler_score = none →
        (SpeechEvaluationEngine.extract_scores inp).filler_words = 70) ∧
    (∀ inp : SpeechEvaluationEngine.EngineInputs,
      inp.st_overall = none → inp.st_score = none →
        (SpeechEvaluationEngine.extract_scores inp).structure_score = 50) ∧
    (∀ inp : SpeechEvaluationEngine.EngineInputs,
      inp.eff_overall = none → inp.eff_score = none →
        (SpeechEvaluationEngine.extract_scores inp).effectiveness = 50) ∧
    (∀ (inp : SpeechEvaluationEngine.EngineInputs) (v : ℚ),
      inp.vm_total = some v → v > 100 →
        (SpeechEvaluationEngine.extract_scores inp).voice_modulation = 100) ∧
    (∀ (inp : SpeechEvaluationEngine.EngineInputs) (v : ℚ),
      inp.filler_score = some v → v > 100 →
        (SpeechEvaluationEngine.extract_scores inp).filler_words = 100) := by
  refine ⟨?_, ?_, ?_, ?_, ?_, ?_, ?_, ?_⟩
  · intro inp h1 h2
    norm_num [SpeechEvaluationEngine.extract_scores,
      SpeechEvaluationEngine.validate, h1, h2]
  · intro inp h1 h2
    norm_num [SpeechEvaluationEngine.extract_scores,
      SpeechEvaluationEngine.validate, h1, h2]
  · intro inp h1 h2
    norm_num [SpeechEvaluationEngine.extract_scores,
      SpeechEvaluationEngine.validate, h1, h2]
  · intro inp h1
    norm_num [SpeechEvaluationEngine.extract_scores,
      SpeechEvaluationEngine.validate, h1]
  · intro inp h1 h2
    norm_num [SpeechEvaluationEngine.extract_scores,
      SpeechEvaluationEngine.validate, h1, h2]
  · intro inp h1 h2
    norm_num [SpeechEvaluationEngine.extract_scores,
      SpeechEvaluationEngine.validate, h1, h2]
  · intro inp v hv h100
    simp only [SpeechEvaluationEngine.extract_scores,
      SpeechEvaluationEngine.validate, hv, Option.getD_some]
    rw [if_neg (by linarith), if_pos h100]
  · intro inp v hv h100
    simp only [SpeechEvaluationEngine.extract_scores,
      SpeechEvaluationEngine.validate, hv, Option.getD_some]
    rw [if_neg (by linarith), if_pos h100]

/-- Witness for `C9_missing_score_defaults` at concrete inputs. -/
theorem C9_missing_score_defaults_witness :
    (SpeechEvaluationEngine.extract_scores
      ⟨none, none, none, none, none, none, none, none, none, none, none⟩).voice_modulation = 50 ∧
    (SpeechEvaluationEngine.extract_scores
      ⟨none, none, none, none, none, none, none, none, none, none, none⟩).filler_words = 70 ∧
    (SpeechEvaluationEngine.extract_scores
      ⟨some 150, none, none, none, none, none, none, none, none, none, none⟩).voice_modulation = 100 :=
  ⟨C9_missing_score_defaults.1 _ rfl rfl,
   C9_missing_score_defaults.2.2.2.1 _ rfl,
   C9_missing_score_defaults.2.2.2.2.2.2.1 _ 150 rfl (by norm_num)⟩

/-- C10: `ProficiencyCalculator.calculate` never consults its
`expected_duration` argument: `_evaluate_filler_words` and
`_evaluate_pauses` accept and ignore it, and
`_get_duration_adjusted_thresholds` is never called, so all returned scores
are identical for any two duration strings. -/
theorem C10_duration_independent (tr : Unit) (fa : FillerAnalysis)
    (ed₁ ed₂ : String) :
    ProficiencyCalculator.calculate tr fa ed₁ =
      ProficiencyCalculator.calculate tr fa ed₂ := rfl

section PauseMarkers

/-- Scanner for `re.sub(r'\s+', ' ', s)`: the flag records whether the
scanner is inside a whitespace run (whose first character already emitted
the single replacement space). -/
def squeezeAux : Bool → List Char → List Char
  | _, [] => []
  | inRun, c :: cs =>
    if isPySpace c then
      if inRun then squeezeAux true cs else ' ' :: squeezeAux true cs
    else c :: squeezeAux false cs

/-- `re.sub(r'\s+', ' ', s)`: collapse every whitespace run to a single
space. -/
def squeezeWS (l : List Char) : List Char := squeezeAux false l

/-- Python `str.strip()`: drop whitespace from both ends. -/
def stripWS (l : List Char) : List Char :=
  ((l.dropWhile isPySpace).reverse.dropWhile isPySpace).reverse

/-- `re.sub(r'\s+', ' ', s).strip()`, the whitespace normalization at the
end of `TranscriptionAnalyzer._process_transcription`. -/
def pyNormWS (l : List Char) : List Char := stripWS (squeezeWS l)

/-- Decimal rendering of a natural number, as Python string formatting
produces it. -/
def natChars (n : ℕ) : List Char :=
  if h : n < 10 then [Nat.digitChar n]
  else natChars (n / 10) ++ [Nat.digitChar (n % 10)]
  termination_by n
  decreasing_by omega

/-- The pause marker `f"[{pause_duration} second pause]"` for a rounded
duration of `tenths / 10` seconds: Python renders the one-decimal float as
`intpart.fracdigit`. -/
def markerChars (tenths : ℕ) : List Char :=
  '[' :: (natChars (tenths / 10) ++ '.' :: natChars (tenths % 10) ++
    " second pause]".data)

/-- One word of the transcription with its timestamps
(`word_info['word']`, `['start']`, `['end']`; `end` is a Lean keyword). -/
structure WordTiming where
  word : List Char
  start : ℚ
  finish : ℚ

/-- The token stream built by the loop of
`TranscriptionAnalyzer._process_transcription` (lines 87-101): each word,
followed by a pause marker whenever the gap to the next word's start is at
least 1 second, with `pause_duration = round(time_gap, 1)`. -/
def tokensOf : List WordTiming → List (List Char)
  | [] => []
  | [w] => [w.word]
  | w :: w' :: rest =>
    let time_gap := w'.start - w.finish
    if time_gap ≥ 1 then
      w.word :: markerChars (Int.toNat (pythonRound (time_gap * 10))) ::
        tokensOf (w' :: rest)
    else
      w.word :: tokensOf (w' :: rest)

/-- Python `' '.join`. -/
def joinSp : List (List Char) → List Char
  | [] => []
  | [t] => t
  | t :: ts => t ++ ' ' :: joinSp ts

/-- `TranscriptionAnalyzer._process_transcription` (lines 72-107), text
component: with no word timestamps the original text is returned unchanged;
otherwise the tokens are joined with spaces and the whitespace is
normalized. -/
def process_transcription (text : List Char) (all_words : List WordTiming) :
    List Char :=
  if all_words.isEmpty then text
  else pyNormWS (joinSp (tokensOf all_words))

/-- One-or-more decimal digits (`\d+`): consume them, or fail. -/
def parseDigits1 : List Char → Option (List Char)
  | [] => none
  | c :: cs => if c.isDigit then some (cs.dropWhile Char.isDigit) else none

/-- Match a literal character sequence. -/
def parseLit : List Char → List Char → Option (List Char)
  | [], rest => some rest
  | _ :: _, [] => none
  | p :: ps, c :: cs => if c = p then parseLit ps cs else none

/-- Match of the marker pattern `\[\d+\.\d+ second pause\]` at the current
position (the pattern is deterministic: its digit classes are disjoint
from the literals that follow them, so greedy matching never backtracks). -/
def parseMarker (l : List Char) : Option (List Char) :=
  match l with
  | '[' :: rest =>
    match parseDigits1 rest with
    | none => none
    | some r1 =>
      match r1 with
      | '.' :: r2 =>
        match parseDigits1 r2 with
        | none => none
        | some r3 => parseLit " second pause]".data r3
      | _ => none
  | _ => none

theorem length_dropWhile_le (p : Char → Bool) (l : List Char) :
    (l.dropWhile p).length ≤ l.length :=
  (List.dropWhile_suffix p).length_le

theorem parseDigits1_length {l r : List Char} (h : parseDigits1 l = some r) :
    r.length < l.length := by
  cases l with
  | nil => simp [parseDigits1] at h
  | cons c cs =>
    simp only [parseDigits1] at h
    split at h
    · have hr : r = cs.dropWhile Char.isDigit := by
        injection h with h'
        exact h'.symm
      have hle := length_dropWhile_le Char.isDigit cs
      subst hr
      simp only [List.length_cons]
      omega
    · exact absurd h (by simp)

theorem parseLit_length :
    ∀ {p l r : List Char}, parseLit p l = some r → r.length ≤ l.length := by
  intro p
  induction p with
  | nil =>
    intro l r h
    simp only [parseLit] at h
    injection h with h'
    simp [h']
  | cons a ps ih =>
    intro l r h
    cases l with
    | nil => simp [parseLit] at h
    | cons c cs =>
      simp only [parseLit] at h
      split at h
      · have := ih h
        simp only [List.length_cons]
        omega
      · exact absurd h (by simp)

theorem parseMarker_length {l r : List Char} (h : parseMarker l = some r) :
    r.length < l.length := by
  unfold parseMarker at h
  split at h
  · rename_i rest
    split at h
    · exact absurd h (by simp)
    · rename_i r1 hd
      split at h
      · rename_i r2
        split at h
        · exact absurd h (by simp)
        · rename_i r3 he
          have h1 := parseDigits1_length hd
          have h3 := parseDigits1_length he
          have h4 := parseLit_length h
          simp only [List.length_cons] at h1 ⊢
          omega
      · exact absurd h (by simp)
  · exact absurd h (by simp)

/-- `re.sub(pattern, '', text)` for the marker pattern: scan left to right,
deleting each leftmost non-overlapping match. -/
def stripMarkersAux : List Char → List Char
  | [] => []
  | c :: cs =>
    match h : parseMarker (c :: cs) with
    | some r => stripMarkersAux r
    | none => c :: stripMarkersAux cs
  termination_by l => l.length
  decreasing_by
  · have := parseMarker_length h
    simp only [List.length_cons] at this ⊢
    omega
  · simp only [List.length_cons]
    omega

/-- The pause-marker cleanup of `GrammarAnalyzer.analyze` (line 31):
`re.sub(r'\[\d+\.\d+ second pause\]', '', text)`. -/
def GrammarAnalyzer.clean_text (text : List Char) : List Char :=
  stripMarkersAux text

/-- A transcribed word as it enters the join: nonempty, with no whitespace
and no `[` character. -/
def GoodWord (w : List Char) : Prop :=
  w ≠ [] ∧ ∀ c ∈ w, isPySpace c = false ∧ c ≠ '['

end PauseMarkers

section PauseMarkerLemmas

theorem digitChar_facts {d : ℕ} (h : d < 10) :
    (Nat.digitChar d).isDigit = true ∧ isPySpace (Nat.digitChar d) = false ∧
      Nat.digitChar d ≠ '[' := by
  interval_cases d <;> exact ⟨by decide, by decide, by decide⟩

theorem natChars_facts (n : ℕ) :
    natChars n ≠ [] ∧ ∀ c ∈ natChars n,
      c.isDigit = true ∧ isPySpace c = false ∧ c ≠ '[' := by
  induction n using Nat.strong_induction_on with
  | _ n ih =>
    rw [natChars]
    split_ifs with h
    · refine ⟨by simp, ?_⟩
      intro c hc
      simp only [List.mem_singleton] at hc
      subst hc
      exact digitChar_facts h
    · refine ⟨by simp, ?_⟩
      intro c hc
      rcases List.mem_append.1 hc with h1 | h2
      · exact (ih (n / 10) (by omega)).2 c h1
      · simp only [List.mem_singleton] at h2
        subst h2
        exact digitChar_facts (Nat.mod_lt _ (by omega))

theorem squeezeAux_cons_nonspace (b : Bool) (c : Char) (l : List Char)
    (hc : isPySpace c = false) :
    squeezeAux b (c :: l) = c :: squeezeAux false l := by
  simp [squeezeAux, hc]

theorem squeezeAux_space (l : List Char) :
    squeezeAux false (' ' :: l) = ' ' :: squeezeAux true l := rfl

theorem squeezeAux_space_run (l : List Char) :
    squeezeAux true (' ' :: l) = squeezeAux true l := rfl

theorem squeezeAux_word : ∀ (w : List Char), w ≠ [] →
    (∀ c ∈ w, isPySpace c = false) →
    ∀ (b : Bool) (l : List Char),
      squeezeAux b (w ++ l) = w ++ squeezeAux false l := by
  intro w
  induction w with
  | nil => intro h; exact absurd rfl h
  | cons c w' ih =>
    intro _ hw b l
    rw [List.cons_append, squeezeAux_cons_nonspace b c _ (hw c (by simp))]
    cases w' with
    | nil => rfl
    | cons d w'' =>
      rw [ih (by simp) (fun x hx => hw x (by simp [hx])) false l]
      rfl

theorem squeezeAux_true_of_head (c : Char) (l : List Char)
    (hc : isPySpace c = false) :
    squeezeAux true (c :: l) = squeezeAux false (c :: l) := by
  rw [squeezeAux_cons_nonspace true c l hc, squeezeAux_cons_nonspace false c l hc]

theorem stripWS_eq_self {l : List Char}
    (h1 : ∃ c t, l = c :: t ∧ isPySpace c = false)
    (h2 : ∃ c t, l.reverse = c :: t ∧ isPySpace c = false) :
    stripWS l = l := by
  obtain ⟨c, t, hct, hc⟩ := h1
  obtain ⟨c', t', hct', hc'⟩ := h2
  unfold stripWS
  have hd : l.dropWhile isPySpace = l := by
    rw [hct]
    exact List.dropWhile_cons_of_neg (by simp [hc])
  rw [hd]
  have hd' : l.reverse.dropWhile isPySpace = l.reverse := by
    rw [hct']
    exact List.dropWhile_cons_of_neg (by simp [hc'])
  rw [hd', List.reverse_reverse]

theorem dropWhile_append_sat {p : Char → Bool} {w : List Char}
    (l : List Char) (hw : ∀ c ∈ w, p c = true) :
    (w ++ l).dropWhile p = l.dropWhile p := by
  induction w with
  | nil => rfl
  | cons c w' ih =>
    rw [List.cons_append, List.dropWhile_cons_of_pos (hw c (by simp))]
    exact ih (fun x hx => hw x (by simp [hx]))

theorem parseDigits1_run {w : List Char} (l : List Char) (hne : w ≠ [])
    (hw : ∀ c ∈ w, c.isDigit = true) :
    parseDigits1 (w ++ l) = some (l.dropWhile Char.isDigit) := by
  cases w with
  | nil => exact absurd rfl hne
  | cons c cs =>
    rw [List.cons_append]
    simp only [parseDigits1, hw c (by simp), if_true]
    rw [dropWhile_append_sat l (fun x hx => hw x (by simp [hx]))]

theorem parseLit_self : ∀ (p l : List Char), parseLit p (p ++ l) = some l := by
  intro p
  induction p with
  | nil => intro l; rfl
  | cons c ps ih =>
    intro l
    rw [List.cons_append]
    simp only [parseLit, if_pos rfl]
    exact ih l

theorem parseMarker_marker (k : ℕ) (l : List Char) :
    parseMarker (markerChars k ++ l) = some l := by
  have hint := natChars_facts (k / 10)
  have hfrac := natChars_facts (k % 10)
  have hshape : markerChars k ++ l =
      '[' :: (natChars (k / 10) ++
        ('.' :: (natChars (k % 10) ++ (" second pause]".data ++ l)))) := by
    simp [markerChars, List.append_assoc]
  rw [hshape]
  show parseMarker ('[' :: _) = some l
  rw [parseMarker]
  rw [parseDigits1_run _ hint.1 (fun c hc => (hint.2 c hc).1)]
  rw [List.dropWhile_cons_of_neg (by decide)]
  simp only
  rw [parseDigits1_run _ hfrac.1 (fun c hc => (hfrac.2 c hc).1)]
  have hlit : (" second pause]".data ++ l).dropWhile Char.isDigit =
      " second pause]".data ++ l := by
    rw [show (" second pause]".data ++ l) = ' ' :: ("second pause]".data ++ l) from rfl]
    exact List.dropWhile_cons_of_neg (by decide)
  rw [hlit]
  simp only
  exact parseLit_self " second pause]".data l

theorem parseMarker_cons_ne {c : Char} (cs : List Char) (hc : c ≠ '[') :
    parseMarker (c :: cs) = none := by
  unfold parseMarker
  split
  · rename_i rest heq
    injection heq with h1 _
    exact absurd h1 hc
  · rfl

theorem stripMarkersAux_cons_ne {c : Char} (cs : List Char) (hc : c ≠ '[') :
    stripMarkersAux (c :: cs) = c :: stripMarkersAux cs := by
  rw [stripMarkersAux]
  split
  · rename_i r hr
    rw [parseMarker_cons_ne cs hc] at hr
    cases hr
  · rfl

theorem stripMarkersAux_marker (k : ℕ) (l : List Char) :
    stripMarkersAux (markerChars k ++ l) = stripMarkersAux l := by
  have hm := parseMarker_marker k l
  obtain ⟨t, ht⟩ : ∃ t, markerChars k ++ l = '[' :: t :=
    ⟨natChars (k / 10) ++ ('.' :: (natChars (k % 10) ++ (" second pause]".data ++ l))),
      by simp [markerChars, List.append_assoc]⟩
  rw [ht]
  rw [stripMarkersAux]
  split
  · rename_i r hr
    rw [← ht, hm] at hr
    injection hr with hr'
    rw [hr']
  · rename_i hr
    rw [← ht, hm] at hr
    cases hr

theorem stripMarkersAux_word : ∀ (w : List Char) (l : List Char),
    (∀ c ∈ w, c ≠ '[') →
    stripMarkersAux (w ++ l) = w ++ stripMarkersAux l := by
  intro w
  induction w with
  | nil => intro l _; rfl
  | cons c w' ih =>
    intro l hw
    rw [List.cons_append, stripMarkersAux_cons_ne _ (hw c (by simp)),
      ih l (fun x hx => hw x (by simp [hx]))]
    rfl

end PauseMarkerLemmas

section PauseMarkerRoundtrip

theorem squeezeAux_marker (b : Bool) (k : ℕ) (X : List Char) :
    squeezeAux b (markerChars k ++ X) = markerChars k ++ squeezeAux false X := by
  have hA := natChars_facts (k / 10)
  have hB := natChars_facts (k % 10)
  have hlit : (" second pause]".data : List Char) =
      ' ' :: ("second".data ++ (' ' :: "pause]".data)) := rfl
  have hshape : markerChars k ++ X =
      '[' :: (natChars (k / 10) ++ ('.' :: (natChars (k % 10) ++
        (' ' :: ("second".data ++ (' ' :: ("pause]".data ++ X))))))) := by
    simp [markerChars, hlit, List.append_assoc]
  rw [hshape]
  rw [squeezeAux_cons_nonspace b '[' _ (by decide)]
  rw [squeezeAux_word (natChars (k / 10)) hA.1
    (fun c hc => (hA.2 c hc).2.1) false _]
  rw [squeezeAux_cons_nonspace false '.' _ (by decide)]
  rw [squeezeAux_word (natChars (k % 10)) hB.1
    (fun c hc => (hB.2 c hc).2.1) false _]
  rw [squeezeAux_space]
  rw [squeezeAux_word "second".data (by decide) (by decide) true _]
  rw [squeezeAux_space]
  rw [squeezeAux_word "pause]".data (by decide) (by decide) true _]
  simp [markerChars, hlit, List.append_assoc]

/-- What the marker-stripping regex leaves of the joined token stream:
each marker disappears, leaving its two surrounding single spaces. -/
def strippedTail : List WordTiming → List Char
  | [] => []
  | [w] => w.word
  | w :: w' :: rest =>
    if w'.start - w.finish ≥ 1 then
      w.word ++ ' ' :: ' ' :: strippedTail (w' :: rest)
    else
      w.word ++ ' ' :: strippedTail (w' :: rest)

theorem joinSp_cons (t : List Char) {ts : List (List Char)} (h : ts ≠ []) :
    joinSp (t :: ts) = t ++ ' ' :: joinSp ts := by
  cases ts with
  | nil => exact absurd rfl h
  | cons a tl => rfl

theorem tokensOf_cons (w w' : WordTiming) (rest : List WordTiming) :
    tokensOf (w :: w' :: rest) =
      if w'.start - w.finish ≥ 1 then
        w.word :: markerChars (Int.toNat (pythonRound ((w'.start - w.finish) * 10))) ::
          tokensOf (w' :: rest)
      else
        w.word :: tokensOf (w' :: rest) := rfl

theorem tokensOf_ne_nil : ∀ {ws : List WordTiming}, ws ≠ [] → tokensOf ws ≠ [] := by
  intro ws h
  cases ws with
  | nil => exact absurd rfl h
  | cons w rest =>
    cases rest with
    | nil => simp [tokensOf]
    | cons w' rest' =>
      rw [tokensOf_cons]
      split_ifs <;> simp

theorem tokensOf_head : ∀ (w : WordTiming) (rest : List WordTiming),
    ∃ ts, tokensOf (w :: rest) = w.word :: ts := by
  intro w rest
  cases rest with
  | nil => exact ⟨[], rfl⟩
  | cons w' rest' =>
    rw [tokensOf_cons]
    split_ifs
    · exact ⟨_, rfl⟩
    · exact ⟨_, rfl⟩

theorem joinSp_head : ∀ (t : List Char) (ts : List (List Char)),
    ∃ Y, joinSp (t :: ts) = t ++ Y := by
  intro t ts
  cases ts with
  | nil => exact ⟨[], by simp [joinSp]⟩
  | cons a tl => exact ⟨' ' :: joinSp (a :: tl), rfl⟩

theorem stripMarkersAux_nil : stripMarkersAux [] = [] := by
  rw [stripMarkersAux]

theorem strip_joined : ∀ (ws : List WordTiming),
    (∀ w ∈ ws, GoodWord w.word) →
    stripMarkersAux (joinSp (tokensOf ws)) = strippedTail ws := by
  intro ws
  induction ws with
  | nil =>
    intro _
    show stripMarkersAux [] = []
    exact stripMarkersAux_nil
  | cons w rest ih =>
    intro h
    have hw := h w (by simp)
    have hwne := hw.1
    have hwchars : ∀ c ∈ w.word, c ≠ '[' := fun c hc => (hw.2 c hc).2
    cases rest with
    | nil =>
      show stripMarkersAux (joinSp [w.word]) = w.word
      have h1 : joinSp [w.word] = w.word ++ [] := by simp [joinSp]
      rw [h1, stripMarkersAux_word _ _ hwchars, stripMarkersAux_nil]
      simp
    | cons w' rest' =>
      have htail : ∀ x ∈ (w' :: rest'), GoodWord x.word :=
        fun x hx => h x (by simp [hx])
      have ihh := ih htail
      rw [tokensOf_cons]
      show stripMarkersAux (joinSp _) = strippedTail (w :: w' :: rest')
      rw [show strippedTail (w :: w' :: rest') =
        if w'.start - w.finish ≥ 1 then
          w.word ++ ' ' :: ' ' :: strippedTail (w' :: rest')
        else w.word ++ ' ' :: strippedTail (w' :: rest') from rfl]
      split_ifs with hgap
      · rw [joinSp_cons _ (by simp),
          joinSp_cons _ (tokensOf_ne_nil (by simp)),
          stripMarkersAux_word _ _ hwchars,
          stripMarkersAux_cons_ne _ (by decide)]
        rw [stripMarkersAux_marker, stripMarkersAux_cons_ne _ (by decide), ihh]
      · rw [joinSp_cons _ (tokensOf_ne_nil (by simp)),
          stripMarkersAux_word _ _ hwchars,
          stripMarkersAux_cons_ne _ (by decide), ihh]

end PauseMarkerRoundtrip

section PauseMarkerFinal

theorem head_joined (ws : List WordTiming) (hne : ws ≠ [])
    (h : ∀ w ∈ ws, GoodWord w.word) :
    ∃ c t, joinSp (tokensOf ws) = c :: t ∧ isPySpace c = false := by
  cases ws with
  | nil => exact absurd rfl hne
  | cons w rest =>
    have hw := h w (by simp)
    obtain ⟨ts, hts⟩ := tokensOf_head w rest
    obtain ⟨Y, hY⟩ := joinSp_head w.word ts
    cases hcw : w.word with
    | nil => exact absurd hcw hw.1
    | cons c wtail =>
      refine ⟨c, wtail ++ Y, ?_, (hw.2 c (by simp [hcw])).1⟩
      rw [hts, hY, hcw]
      rfl

theorem rev_append_head {A : List Char} {c : Char} {t : List Char}
    (B : List Char) (h : A.reverse = c :: t) :
    ∃ t', ((B ++ A)).reverse = c :: t' :=
  ⟨t ++ B.reverse, by rw [List.reverse_append, h]; rfl⟩

theorem rev_head_word {w : List Char} (hne : w ≠ [])
    (hw : ∀ c ∈ w, isPySpace c = false) :
    ∃ c t, w.reverse = c :: t ∧ isPySpace c = false := by
  have hrne : w.reverse ≠ [] := by simp [hne]
  obtain ⟨c, t, hct⟩ := List.exists_cons_of_ne_nil hrne
  refine ⟨c, t, hct, hw c ?_⟩
  rw [← List.mem_reverse, hct]
  simp

theorem rev_head_joined : ∀ (ws : List WordTiming), ws ≠ [] →
    (∀ w ∈ ws, GoodWord w.word) →
    ∃ c t, (joinSp (tokensOf ws)).reverse = c :: t ∧ isPySpace c = false := by
  intro ws
  induction ws with
  | nil => intro h; exact absurd rfl h
  | cons w rest ih =>
    intro _ h
    have hw := h w (by simp)
    cases rest with
    | nil =>
      show ∃ c t, (joinSp [w.word]).reverse = c :: t ∧ isPySpace c = false
      have h1 : joinSp [w.word] = w.word := rfl
      rw [h1]
      exact rev_head_word hw.1 (fun c hc => (hw.2 c hc).1)
    | cons w' rest' =>
      have htail : ∀ x ∈ (w' :: rest'), GoodWord x.word :=
        fun x hx => h x (by simp [hx])
      obtain ⟨c, t, hct, hc⟩ := ih (by simp) htail
      rw [tokensOf_cons]
      split_ifs with hgap
      · have hshape : joinSp (w.word ::
            markerChars (Int.toNat (pythonRound ((w'.start - w.finish) * 10))) ::
            tokensOf (w' :: rest')) =
            ((w.word ++ [' ']) ++
              (markerChars (Int.toNat (pythonRound ((w'.start - w.finish) * 10))) ++ [' '])) ++
              joinSp (tokensOf (w' :: rest')) := by
          rw [joinSp_cons _ (by simp), joinSp_cons _ (tokensOf_ne_nil (by simp))]
          simp [List.append_assoc]
        rw [hshape]
        obtain ⟨t', ht'⟩ := rev_append_head _ hct
        exact ⟨c, t', ht', hc⟩
      · have hshape : joinSp (w.word :: tokensOf (w' :: rest')) =
            (w.word ++ [' ']) ++ joinSp (tokensOf (w' :: rest')) := by
          rw [joinSp_cons _ (tokensOf_ne_nil (by simp))]
          simp [List.append_assoc]
        rw [hshape]
        obtain ⟨t', ht'⟩ := rev_append_head _ hct
        exact ⟨c, t', ht', hc⟩

theorem squeeze_joined : ∀ (ws : List WordTiming), ws ≠ [] →
    (∀ w ∈ ws, GoodWord w.word) →
    squeezeAux false (joinSp (tokensOf ws)) = joinSp (tokensOf ws) := by
  intro ws
  induction ws with
  | nil => intro h; exact absurd rfl h
  | cons w rest ih =>
    intro _ h
    have hw := h w (by simp)
    have hwsp : ∀ c ∈ w.word, isPySpace c = false := fun c hc => (hw.2 c hc).1
    cases rest with
    | nil =>
      show squeezeAux false (joinSp [w.word]) = joinSp [w.word]
      have h1 : joinSp [w.word] = w.word ++ [] := by simp [joinSp]
      rw [h1, squeezeAux_word _ hw.1 hwsp false []]
      rfl
    | cons w' rest' =>
      have htail : ∀ x ∈ (w' :: rest'), GoodWord x.word :=
        fun x hx => h x (by simp [hx])
      have ihh := ih (by simp) htail
      obtain ⟨c, l', hJ, hc⟩ := head_joined (w' :: rest') (by simp) htail
      rw [tokensOf_cons]
      split_ifs with hgap
      · rw [joinSp_cons _ (by simp), joinSp_cons _ (tokensOf_ne_nil (by simp))]
        rw [squeezeAux_word _ hw.1 hwsp false _, squeezeAux_space,
          squeezeAux_marker, squeezeAux_space, hJ,
          squeezeAux_true_of_head c l' hc, ← hJ, ihh]
      · rw [joinSp_cons _ (tokensOf_ne_nil (by simp))]
        rw [squeezeAux_word _ hw.1 hwsp false _, squeezeAux_space, hJ,
          squeezeAux_true_of_head c l' hc, ← hJ, ihh]

theorem strippedTail_shape : ∀ (w : WordTiming) (rest : List WordTiming),
    ∃ Y, strippedTail (w :: rest) = w.word ++ Y := by
  intro w rest
  cases rest with
  | nil => exact ⟨[], by simp [strippedTail]⟩
  | cons w' rest' =>
    show ∃ Y, (if w'.start - w.finish ≥ 1 then
        w.word ++ ' ' :: ' ' :: strippedTail (w' :: rest')
      else w.word ++ ' ' :: strippedTail (w' :: rest')) = w.word ++ Y
    split_ifs
    · exact ⟨_, rfl⟩
    · exact ⟨_, rfl⟩

theorem squeeze_stripped : ∀ (ws : List WordTiming), ws ≠ [] →
    (∀ w ∈ ws, GoodWord w.word) →
    squeezeAux false (strippedTail ws) =
      joinSp (ws.map (fun x => x.word)) := by
  intro ws
  induction ws with
  | nil => intro h; exact absurd rfl h
  | cons w rest ih =>
    intro _ h
    have hw := h w (by simp)
    have hwsp : ∀ c ∈ w.word, isPySpace c = false := fun c hc => (hw.2 c hc).1
    cases rest with
    | nil =>
      show squeezeAux false (strippedTail [w]) = joinSp [w.word]
      have h1 : strippedTail [w] = w.word ++ [] := by simp [strippedTail]
      rw [h1, squeezeAux_word _ hw.1 hwsp false []]
      simp [joinSp]
      rfl
    | cons w' rest' =>
      have htail : ∀ x ∈ (w' :: rest'), GoodWord x.word :=
        fun x hx => h x (by simp [hx])
      have ihh := ih (by simp) htail
      have hw' := htail w' (by simp)
      obtain ⟨Y, hY⟩ := strippedTail_shape w' rest'
      have hThead : ∃ c l', strippedTail (w' :: rest') = c :: l' ∧
          isPySpace c = false := by
        rw [hY]
        cases hcw : w'.word with
        | nil => exact absurd hcw hw'.1
        | cons c wtail =>
          exact ⟨c, wtail ++ Y, by simp, (hw'.2 c (by simp [hcw])).1⟩
      obtain ⟨c, l', hT, hc⟩ := hThead
      have hjoin : joinSp ((w :: w' :: rest').map (fun x => x.word)) =
          w.word ++ ' ' :: joinSp ((w' :: rest').map (fun x => x.word)) := by
        rw [List.map_cons, joinSp_cons _ (by simp)]
      rw [hjoin]
      rw [show strippedTail (w :: w' :: rest') =
        if w'.start - w.finish ≥ 1 then
          w.word ++ ' ' :: ' ' :: strippedTail (w' :: rest')
        else w.word ++ ' ' :: strippedTail (w' :: rest') from rfl]
      split_ifs with hgap
      · rw [squeezeAux_word _ hw.1 hwsp false _, squeezeAux_space,
          squeezeAux_space_run, hT, squeezeAux_true_of_head c l' hc,
          ← hT, ihh]
      · rw [squeezeAux_word _ hw.1 hwsp false _, squeezeAux_space, hT,
          squeezeAux_true_of_head c l' hc, ← hT, ihh]

theorem head_words (ws : List WordTiming) (hne : ws ≠ [])
    (h : ∀ w ∈ ws, GoodWord w.word) :
    ∃ c t, joinSp (ws.map (fun x => x.word)) = c :: t ∧
      isPySpace c = false := by
  cases ws with
  | nil => exact absurd rfl hne
  | cons w rest =>
    have hw := h w (by simp)
    obtain ⟨Y, hY⟩ := joinSp_head w.word (rest.map (fun x => x.word))
    cases hcw : w.word with
    | nil => exact absurd hcw hw.1
    | cons c wtail =>
      refine ⟨c, wtail ++ Y, ?_, (hw.2 c (by simp [hcw])).1⟩
      rw [List.map_cons, hY, hcw]
      rfl

theorem rev_head_words : ∀ (ws : List WordTiming), ws ≠ [] →
    (∀ w ∈ ws, GoodWord w.word) →
    ∃ c t, (joinSp (ws.map (fun x => x.word))).reverse = c :: t ∧
      isPySpace c = false := by
  intro ws
  induction ws with
  | nil => intro h; exact absurd rfl h
  | cons w rest ih =>
    intro _ h
    have hw := h w (by simp)
    cases rest with
    | nil =>
      show ∃ c t, (joinSp [w.word]).reverse = c :: t ∧ isPySpace c = false
      have h1 : joinSp [w.word] = w.word := rfl
      rw [h1]
      exact rev_head_word hw.1 (fun c hc => (hw.2 c hc).1)
    | cons w' rest' =>
      have htail : ∀ x ∈ (w' :: rest'), GoodWord x.word :=
        fun x hx => h x (by simp [hx])
      obtain ⟨c, t, hct, hc⟩ := ih (by simp) htail
      have hshape : joinSp ((w :: w' :: rest').map (fun x => x.word)) =
          (w.word ++ [' ']) ++ joinSp ((w' :: rest').map (fun x => x.word)) := by
        rw [List.map_cons, joinSp_cons _ (by simp)]
        simp [List.append_assoc]
      rw [hshape]
      obtain ⟨t', ht'⟩ := rev_append_head _ hct
      exact ⟨c, t', ht', hc⟩

end PauseMarkerFinal

/-- C8: round-trip of the pause-marker convention.  For every nonempty word
stream (each word nonempty, whitespace-free and free of `[`),
`TranscriptionAnalyzer._process_transcription` joins the words, inserting a
marker `[d.d second pause]` at every inter-word gap of at least one second,
and the grammar re-analysis strips the documented pattern
`\[\d+\.\d+ second pause\]`; normalizing the whitespace of the stripped
text recovers exactly the original word stream joined by single spaces —
the original text, minus the markers, with normalized whitespace. -/
theorem C8_pause_marker_roundtrip (text : List Char) (ws : List WordTiming)
    (hne : ws ≠ []) (h : ∀ w ∈ ws, GoodWord w.word) :
    pyNormWS (GrammarAnalyzer.clean_text (process_transcription text ws)) =
      joinSp (ws.map (fun w => w.word)) := by
  have hn : ws.isEmpty = false := by
    cases ws with
    | nil => exact absurd rfl hne
    | cons a l => rfl
  unfold process_transcription
  rw [hn]
  simp only [Bool.false_eq_true, if_false]
  have hid : pyNormWS (joinSp (tokensOf ws)) = joinSp (tokensOf ws) := by
    unfold pyNormWS squeezeWS
    rw [squeeze_joined ws hne h]
    exact stripWS_eq_self (head_joined ws hne h) (rev_head_joined ws hne h)
  rw [hid]
  unfold GrammarAnalyzer.clean_text
  rw [strip_joined ws h]
  unfold pyNormWS squeezeWS
  rw [squeeze_stripped ws hne h]
  exact stripWS_eq_self (head_words ws hne h) (rev_head_words ws hne h)

/-- Witness for `C8_pause_marker_roundtrip`: the stream "hello" (ending at
1s) and "world" (starting at 3.3s) gets the marker `[2.3 second pause]`
inserted and stripped, recovering "hello world". -/
theorem C8_pause_marker_roundtrip_witness :
    pyNormWS (GrammarAnalyzer.clean_text (process_transcription []
      [⟨"hello".data, 0, 1⟩, ⟨"world".data, 33/10, 4⟩])) =
      joinSp ([⟨"hello".data, 0, 1⟩,
        (⟨"world".data, 33/10, 4⟩ : WordTiming)].map (fun w => w.word)) :=
  C8_pause_marker_roundtrip [] _ (by simp)
    (by
      intro w hw
      simp only [List.mem_cons, List.mem_singleton] at hw
      rcases hw with rfl | rfl | h'
      · exact ⟨by decide, by decide⟩
      · exact ⟨by decide, by decide⟩
      · exact absurd h' (by simp))
